import Mathlib

/-!
Verification of the signal-provider subsystem of the robot-log-visualizer
repository.  The Python sources under
`robot_log_visualizer/signal_provider/` and
`robot_log_visualizer/file_reader/` are shallowly embedded below:
timestamps (Python floats) are modelled as rationals, numpy arrays as
lists, Python dicts as association lists, and operations that can raise
(`IndexError`, `KeyError`, `ValueError`) return `Except Unit`.
-/

namespace RLV

/-- Equality of `Except` results is decidable componentwise, so concrete
runs of the embedded operations can be checked by `decide`. -/
instance instDecEqExcept {ε α : Type} [DecidableEq ε] [DecidableEq α] :
    DecidableEq (Except ε α) := fun x y =>
  match x, y with
  | .error a, .error b =>
      if h : a = b then .isTrue (congrArg Except.error h)
      else .isFalse (fun hc => h (Except.error.inj hc))
  | .ok a, .ok b =>
      if h : a = b then .isTrue (congrArg Except.ok h)
      else .isFalse (fun hc => h (Except.ok.inj hc))
  | .error _, .ok _ => .isFalse (fun hc => Except.noConfusion hc)
  | .ok _, .error _ => .isFalse (fun hc => Except.noConfusion hc)

/-! ## Offline provider: index / current-time management

Embeds `SignalProvider` from
`robot_log_visualizer/signal_provider/signal_provider.py` (identical code
in `robot_log_visualizer/file_reader/signal_provider.py`): the fields of
the state are `self.timestamps`, `self.initial_time`, `self._index`,
`self._current_time` and `self.period`.
-/

structure OfflineState where
  timestamps : List ℚ
  initial_time : ℚ
  index : ℤ
  current_time : ℚ
  period : ℚ
  deriving Repr, DecidableEq

/-- `int(q)` in Python truncates toward zero. -/
def pyInt (q : ℚ) : ℤ := if 0 ≤ q then q.floor else -((-q).floor)

theorem ratFloor_eq_floor (q : ℚ) : q.floor = ⌊q⌋ := by
  rw [Rat.floor_def', ← Rat.floor_def]

/-- The clamped index computed by `SignalProvider.update_index`:
`max(min(index, len(self.timestamps) - 1), 0)`. -/
def clampIndex (st : OfflineState) (i : ℤ) : ℤ :=
  max (min i ((st.timestamps.length : ℤ) - 1)) 0

/-- `SignalProvider.update_index`:
`self._index = max(min(index, len(self.timestamps) - 1), 0)` followed by
`self._current_time = self.timestamps[self._index] - self.initial_time`.
The read of `self.timestamps[self._index]` raises `IndexError` on an
empty timeline, modelled by `Except.error`. -/
def update_index (st : OfflineState) (i : ℤ) : Except Unit OfflineState :=
  match st.timestamps[(clampIndex st i).toNat]? with
  | none => .error ()
  | some v =>
      .ok { st with index := clampIndex st i, current_time := v - st.initial_time }

/-- `SignalProvider.set_dataset_percentage`:
`self.update_index(int(percentage * len(self)))`. -/
def set_dataset_percentage (st : OfflineState) (p : ℚ) : Except Unit OfflineState :=
  update_index st (pyInt (p * (st.timestamps.length : ℚ)))

theorem update_index_clamp_eq (st : OfflineState) (i : ℤ)
    (h0 : 0 ≤ i) (h1 : i ≤ (st.timestamps.length : ℤ) - 1)
    (v : ℚ) (hv : st.timestamps[i.toNat]? = some v) :
    update_index st i =
      .ok { st with index := i, current_time := v - st.initial_time } := by
  have hclamp : clampIndex st i = i := by simp only [clampIndex]; omega
  simp only [update_index, hclamp, hv]

theorem update_index_low (st : OfflineState) (i : ℤ) (hi : i < 0)
    (hne : st.timestamps ≠ []) (v : ℚ) (hv : st.timestamps[0]? = some v) :
    update_index st i =
      .ok { st with index := 0, current_time := v - st.initial_time } := by
  have hlen : 0 < st.timestamps.length := List.length_pos.mpr hne
  have hclamp : clampIndex st i = 0 := by simp only [clampIndex]; omega
  simp only [update_index, hclamp, Int.toNat_zero, hv]

theorem update_index_high (st : OfflineState) (i : ℤ)
    (hi : (st.timestamps.length : ℤ) - 1 ≤ i)
    (hne : st.timestamps ≠ []) (v : ℚ)
    (hv : st.timestamps[st.timestamps.length - 1]? = some v) :
    update_index st i =
      .ok { st with index := (st.timestamps.length : ℤ) - 1, current_time := v - st.initial_time } := by
  have hlen : 0 < st.timestamps.length := List.length_pos.mpr hne
  have hclamp : clampIndex st i = (st.timestamps.length : ℤ) - 1 := by
    simp only [clampIndex]; omega
  have htn : (((st.timestamps.length : ℤ) - 1)).toNat = st.timestamps.length - 1 := by
    omega
  simp only [update_index, hclamp, htn, hv]

/-- **C1.** On an offline provider with a non-empty reference timeline,
`update_index(i)` for `i ∈ [0, len-1]` stores exactly `i` and sets
`current_time = timestamps[i] - initial_time`; out-of-range arguments are
clamped: `update_index(-5)` lands on index `0` and `update_index(len+5)`
lands on `len-1`, with `current_time` recomputed from the clamped index. -/
theorem C1_update_index_spec (st : OfflineState) (hne : st.timestamps ≠ []) :
    (∀ i : ℤ, 0 ≤ i → i ≤ (st.timestamps.length : ℤ) - 1 →
      ∀ v, st.timestamps[i.toNat]? = some v →
        update_index st i =
          .ok { st with index := i, current_time := v - st.initial_time }) ∧
    (∀ v, st.timestamps[0]? = some v →
      update_index st (-5) =
        .ok { st with index := 0, current_time := v - st.initial_time }) ∧
    (∀ v, st.timestamps[st.timestamps.length - 1]? = some v →
      update_index st ((st.timestamps.length : ℤ) + 5) =
        .ok { st with index := (st.timestamps.length : ℤ) - 1, current_time := v - st.initial_time }) := by
  refine ⟨fun i h0 h1 v hv => update_index_clamp_eq st i h0 h1 v hv,
          fun v hv => update_index_low st (-5) (by norm_num) hne v hv,
          fun v hv => update_index_high st _ (by omega) hne v hv⟩

/-- Concrete instantiation of `C1_update_index_spec` on a three-sample
timeline. -/
theorem C1_update_index_spec_witness :
    ([(0 : ℚ), 1, 2] ≠ []) ∧
    (update_index ⟨[0, 1, 2], 0, 0, 0, 1⟩ 1 = .ok ⟨[0, 1, 2], 0, 1, 1, 1⟩) ∧
    (update_index ⟨[0, 1, 2], 0, 0, 0, 1⟩ (-5) = .ok ⟨[0, 1, 2], 0, 0, 0, 1⟩) ∧
    (update_index ⟨[0, 1, 2], 0, 0, 0, 1⟩ (3 + 5) = .ok ⟨[0, 1, 2], 0, 2, 2, 1⟩) := by
  have h := C1_update_index_spec ⟨[0, 1, 2], 0, 0, 0, 1⟩ (by decide)
  refine ⟨by decide, ?_, ?_, ?_⟩
  · have := h.1 1 (by decide) (by decide) 1 (by decide)
    simpa using this
  · have := h.2.1 0 (by decide)
    simpa using this
  · have := h.2.2 2 (by decide)
    simpa using this

theorem pyInt_eq_floor (q : ℚ) (h : 0 ≤ q) : pyInt q = ⌊q⌋ := by
  simp [pyInt, h, ratFloor_eq_floor]

/-- **C5 (counterexample).** `set_dataset_percentage` uses Python `int`
(truncation), not rounding: on a ten-sample timeline `0..9`,
`set_dataset_percentage(0.56)` lands on index `5` (since `int(5.6) = 5`)
while `update_index(round(0.56 * 10)) = update_index(6)` lands on `6`,
so the two calls are not equivalent. -/
theorem C5_percentage_round_counterexample :
    set_dataset_percentage ⟨[0, 1, 2, 3, 4, 5, 6, 7, 8, 9], 0, 0, 0, 1⟩ (56 / 100) ≠
      update_index ⟨[0, 1, 2, 3, 4, 5, 6, 7, 8, 9], 0, 0, 0, 1⟩
        (round ((56 / 100 : ℚ) * (([0, 1, 2, 3, 4, 5, 6, 7, 8, 9] : List ℚ).length : ℚ))) := by
  have hround : round ((56 / 100 : ℚ) * (([0, 1, 2, 3, 4, 5, 6, 7, 8, 9] : List ℚ).length : ℚ)) = 6 := by
    norm_num [round_eq]
  have hpy : pyInt ((56 / 100 : ℚ) * ((([0, 1, 2, 3, 4, 5, 6, 7, 8, 9] : List ℚ)).length : ℚ)) = 5 := by
    rw [pyInt_eq_floor _ (by norm_num)]
    norm_num
  have hl : set_dataset_percentage ⟨[0, 1, 2, 3, 4, 5, 6, 7, 8, 9], 0, 0, 0, 1⟩ (56 / 100) =
      .ok ⟨[0, 1, 2, 3, 4, 5, 6, 7, 8, 9], 0, 5, 5 - 0, 1⟩ := by
    rw [set_dataset_percentage, hpy]
    exact update_index_clamp_eq _ 5 (by norm_num) (by norm_num) 5 rfl
  have hr : update_index ⟨[0, 1, 2, 3, 4, 5, 6, 7, 8, 9], 0, 0, 0, 1⟩
        (round ((56 / 100 : ℚ) * (([0, 1, 2, 3, 4, 5, 6, 7, 8, 9] : List ℚ).length : ℚ))) =
      .ok ⟨[0, 1, 2, 3, 4, 5, 6, 7, 8, 9], 0, 6, 6 - 0, 1⟩ := by
    rw [hround]
    exact update_index_clamp_eq _ 6 (by norm_num) (by norm_num) 6 rfl
  rw [hl, hr]
  intro h
  have := (Except.ok.inj h)
  simp only [OfflineState.mk.injEq] at this
  omega

/-- The timeline of the 100-sample / 0.02-second end-to-end scenario. -/
def ts100 : List ℚ := List.map (fun k : ℕ => (k : ℚ) / 50) (List.range 100)

/-- **C5 (amended).** For every percentage `p ∈ [0, 1]`,
`set_dataset_percentage(p)` equals `update_index(⌊p * len⌋)` (Python
`int` truncates, and `p * len ≥ 0` makes truncation a floor); on a
100-sample dataset sampled at 0.02 s, `set_dataset_percentage(0.5)`
yields index `50` and `current_time = 1`. -/
theorem C5_percentage_floor_spec :
    (∀ (st : OfflineState) (p : ℚ), 0 ≤ p → p ≤ 1 →
      set_dataset_percentage st p =
        update_index st ⌊p * (st.timestamps.length : ℚ)⌋) ∧
    (∃ st', set_dataset_percentage ⟨ts100, 0, 0, 0, 1 / 50⟩ (1 / 2) = .ok st' ∧
      st'.index = 50 ∧ st'.current_time = 1) := by
  constructor
  · intro st p hp0 _
    have hq : 0 ≤ p * (st.timestamps.length : ℚ) := by positivity
    rw [set_dataset_percentage, pyInt_eq_floor _ hq]
  · have hlenN : ts100.length = 100 := by
      rw [ts100, List.length_map, List.length_range]
    have hpy : pyInt ((1 / 2 : ℚ) * (ts100.length : ℚ)) = 50 := by
      rw [hlenN, pyInt_eq_floor _ (by norm_num)]
      norm_num
    have hget : ts100[(50 : ℤ).toNat]? = some 1 := by
      show ts100[(50 : ℕ)]? = some 1
      rw [ts100, List.getElem?_map, List.getElem?_range] <;> norm_num
    refine ⟨⟨ts100, 0, 50, 1 - 0, 1 / 50⟩, ?_, rfl, by norm_num⟩
    rw [set_dataset_percentage, hpy]
    have := update_index_clamp_eq ⟨ts100, 0, 0, 0, 1 / 50⟩ 50 (by norm_num)
      (by rw [hlenN]; norm_num) 1 hget
    simpa using this

/-- Concrete instantiation of the quantified part of
`C5_percentage_floor_spec`. -/
theorem C5_percentage_floor_spec_witness :
    (0 : ℚ) ≤ 1 / 4 ∧ (1 / 4 : ℚ) ≤ 1 ∧
    set_dataset_percentage ⟨[0, 1, 2], 0, 0, 0, 1⟩ (1 / 4) =
      update_index ⟨[0, 1, 2], 0, 0, 0, 1⟩ ⌊(1 / 4 : ℚ) * (([0, 1, 2] : List ℚ).length : ℚ)⌋ :=
  ⟨by norm_num, by norm_num,
    (C5_percentage_floor_spec.1 ⟨[0, 1, 2], 0, 0, 0, 1⟩ (1 / 4) (by norm_num) (by norm_num))⟩

/-! ## Path registries (3D points / trajectories)

`self._3d_points_path` and `self._3d_trajectories_path` are Python dicts
keyed by strings; they are modelled as association lists with distinct
keys.  `unregister_3d_point` / `unregister_3d_trajectory` execute
`del dict[key]`, which raises `KeyError` when the key is absent
(modelled by `Except.error`).
-/

def unregister_3d_point (reg : List (String × List String)) (key : String) :
    Except Unit (List (String × List String)) :=
  if reg.any (fun e => e.1 = key) then .ok (reg.filter (fun e => e.1 ≠ key))
  else .error ()

def unregister_3d_trajectory (reg : List (String × List String)) (key : String) :
    Except Unit (List (String × List String)) :=
  if reg.any (fun e => e.1 = key) then .ok (reg.filter (fun e => e.1 ≠ key))
  else .error ()

/-- **C6.** Unregistering a key that is not present in the registry is
*not* a no-op in the code: `del self._3d_points_path[key]` (and likewise
for trajectories) raises `KeyError`.  In particular a second unregister
after a successful one raises instead of being idempotent. -/
theorem C6_unregister_missing_key_raises :
    unregister_3d_point [] "p1" = .error () ∧
    unregister_3d_trajectory [] "t1" = .error () ∧
    unregister_3d_point [("other", ["a", "b"])] "p1" = .error () ∧
    unregister_3d_trajectory [("other", ["a", "b"])] "t1" = .error () ∧
    (unregister_3d_point [("p1", ["a"])] "p1" = .ok [] ∧
      unregister_3d_point [] "p1" = .error ()) := by
  refine ⟨by decide, by decide, by decide, by decide, by decide, by decide⟩

/-! ## Hierarchical data store and path resolution

`self.data` is a nested Python dict; a leaf is a dict holding `data` (a
2D numpy matrix, modelled as a list of rows) and `timestamps` (a 1D
array).  Resolving a missing dict key raises `KeyError`, modelled by
`Except.error`.
-/

inductive DataNode where
  | leaf (data : List (List ℚ)) (timestamps : List ℚ)
  | group (children : List (String × DataNode))

/-- Dictionary lookup among the children of a group node. -/
def findChild : List (String × DataNode) → String → Option DataNode
  | [], _ => none
  | (k', n) :: rest, k => if k' = k then some n else findChild rest k

/-- The loop `for key in path: data = data[key]` of
`SignalProvider.get_item_from_path`; a missing key raises `KeyError`
(also when indexing a leaf dict, whose only keys are
`data`/`timestamps`/`elements_names`). -/
def walkPath : DataNode → List String → Except Unit DataNode
  | n, [] => .ok n
  | .leaf _ _, _ :: _ => .error ()
  | .group cs, k :: rest =>
    match findChild cs k with
    | none => .error ()
    | some c => walkPath c rest

/-- The final `data["data"], data["timestamps"]` reads: a `KeyError`
unless the walk ended on a leaf record. -/
def leafOf : DataNode → Except Unit (List (List ℚ) × List ℚ)
  | .leaf d ts => .ok (d, ts)
  | .group _ => .error ()

/-- The read-side state of the offline provider: `self.data`,
`self.root_name` and the reference timeline `self.timestamps`. -/
structure QueryState where
  data : List (String × DataNode)
  root_name : String
  timestamps : List ℚ

/-- `SignalProvider.get_item_from_path`: starts at
`self.data[self.root_name]`, returns `(None, None)` for an empty path
with no default path, otherwise walks the (default) path. -/
def get_item_from_path (st : QueryState) (path : List String)
    (default_path : Option (List String)) :
    Except Unit (Option (List (List ℚ) × List ℚ)) :=
  match findChild st.data st.root_name with
  | none => .error ()
  | some root =>
    match path with
    | [] =>
      match default_path with
      | none => .ok none
      | some dp => (walkPath root dp).bind (fun n => (leafOf n).map some)
    | _ :: _ => (walkPath root path).bind (fun n => (leafOf n).map some)

/-- `np.argmin(np.abs(timestamps - target))`: the index of the first
occurrence of the minimal absolute difference (numpy documents that the
first occurrence is returned for ties); `none` models the `ValueError`
numpy raises on an empty array. -/
def argminAbs (target : ℚ) : List ℚ → Option ℕ
  | [] => none
  | x :: xs =>
    match argminAbs target xs with
    | none => some 0
    | some j =>
      match xs[j]? with
      | none => some 0
      | some v => if |x - target| ≤ |v - target| then some 0 else some (j + 1)

/-- Result of `get_item_from_path_at_index`: one row (`neighbor = 0`) or
a window of rows (`neighbor > 0`). -/
inductive QueryResult where
  | row (r : List ℚ)
  | window (rows : List (List ℚ))
  deriving Repr, DecidableEq

/-- `SignalProvider.get_item_from_path_at_index`: resolves the path,
finds the leaf row whose leaf-local timestamp is nearest to
`self.timestamps[index]`, and returns that row (`neighbor = 0`) or the
surrounding window clipped to the leaf bounds. -/
def get_item_from_path_at_index (st : QueryState) (path : List String) (index : ℕ)
    (default_path : Option (List String)) (neighbor : ℕ) :
    Except Unit (Option QueryResult) :=
  match get_item_from_path st path default_path with
  | .error e => .error e
  | .ok none => .ok none
  | .ok (some (data, ts)) =>
    match st.timestamps[index]? with
    | none => .error ()
    | some ref =>
      match argminAbs ref ts with
      | none => .error ()
      | some ci =>
        if neighbor = 0 then
          match data[ci]? with
          | none => .error ()
          | some r => .ok (some (.row r))
        else
          .ok (some (.window ((data.drop (ci - neighbor)).take
            (min ts.length (ci + neighbor + 1) - (ci - neighbor)))))

theorem argminAbs_cons_ne_none (target x : ℚ) (xs : List ℚ) :
    argminAbs target (x :: xs) ≠ none := by
  simp only [argminAbs]
  cases hxs : argminAbs target xs with
  | none => simp
  | some j =>
    cases hv : xs[j]? with
    | none => simp [hv]
    | some v =>
      by_cases hc : |x - target| ≤ |v - target| <;> simp [hv, hc]

theorem argminAbs_spec (target : ℚ) :
    ∀ (l : List ℚ) (j : ℕ), argminAbs target l = some j →
      ∃ vj, l[j]? = some vj ∧
        (∀ (k : ℕ) (vk : ℚ), l[k]? = some vk → |vj - target| ≤ |vk - target|) ∧
        (∀ (k : ℕ) (vk : ℚ), k < j → l[k]? = some vk → |vj - target| < |vk - target|) := by
  intro l
  induction l with
  | nil => intro j h; simp [argminAbs] at h
  | cons x xs ih =>
    intro j h
    rw [argminAbs] at h
    cases hxs : argminAbs target xs with
    | none =>
      simp only [hxs] at h
      have hj : j = 0 := by simpa using h.symm
      subst hj
      have hnil : xs = [] := by
        cases xs with
        | nil => rfl
        | cons y ys => exact absurd hxs (argminAbs_cons_ne_none target y ys)
      subst hnil
      refine ⟨x, ?_, ?_, ?_⟩
      · simp
      · intro k vk hk
        cases k with
        | zero => simp at hk; subst hk; exact le_refl _
        | succ n => simp at hk
      · intro k vk hk _
        omega
    | some j' =>
      obtain ⟨vj', hvj', hmin', hstrict'⟩ := ih j' hxs
      simp only [hxs, hvj'] at h
      by_cases hc : |x - target| ≤ |vj' - target|
      · rw [if_pos hc] at h
        have hj : j = 0 := by simpa using h.symm
        subst hj
        refine ⟨x, ?_, ?_, ?_⟩
        · simp
        · intro k vk hk
          cases k with
          | zero => simp at hk; subst hk; exact le_refl _
          | succ n =>
            simp only [List.getElem?_cons_succ] at hk
            exact le_trans hc (hmin' n vk hk)
        · intro k vk hk _
          omega
      · rw [if_neg hc] at h
        have hj : j = j' + 1 := by simpa using h.symm
        subst hj
        refine ⟨vj', ?_, ?_, ?_⟩
        · simpa using hvj'
        · intro k vk hk
          cases k with
          | zero =>
            simp only [List.getElem?_cons_zero, Option.some.injEq] at hk
            subst hk
            exact le_of_lt (lt_of_not_le hc)
          | succ n =>
            simp only [List.getElem?_cons_succ] at hk
            exact hmin' n vk hk
        · intro k vk hklt hk
          cases k with
          | zero =>
            simp only [List.getElem?_cons_zero, Option.some.injEq] at hk
            subst hk
            exact lt_of_not_le hc
          | succ n =>
            simp only [List.getElem?_cons_succ] at hk
            exact hstrict' n vk (by omega) hk

theorem getElem?_lt_length {α : Type} (l : List α) (j : ℕ) (v : α)
    (h : l[j]? = some v) : j < l.length := by
  by_contra hge
  rw [List.getElem?_eq_none (Nat.le_of_not_lt hge)] at h
  cases h

/-- **C2.** For a leaf resolved through `get_item_from_path` and a valid
global index, `get_item_from_path_at_index` with `neighbor = 0` returns
the leaf row whose leaf-local timestamp minimizes the absolute
difference to the reference timestamp, ties broken toward the lowest
index; concretely, for leaf timestamps `[0, 1, 2, 3]` and reference
timestamp `1.4` it selects row index 1 (value `[11]`), not row 2. -/
theorem C2_nearest_timestamp_spec :
    (∀ (st : QueryState) (path : List String) (index : ℕ) (ref : ℚ)
        (d : List (List ℚ)) (ts : List ℚ),
      get_item_from_path st path none = .ok (some (d, ts)) →
      st.timestamps[index]? = some ref →
      ts ≠ [] → d.length = ts.length →
      ∃ (j : ℕ) (vj : ℚ) (row : List ℚ),
        argminAbs ref ts = some j ∧ ts[j]? = some vj ∧ d[j]? = some row ∧
        get_item_from_path_at_index st path index none 0 = .ok (some (.row row)) ∧
        (∀ (k : ℕ) (vk : ℚ), ts[k]? = some vk → |vj - ref| ≤ |vk - ref|) ∧
        (∀ (k : ℕ) (vk : ℚ), k < j → ts[k]? = some vk → |vj - ref| < |vk - ref|)) ∧
    get_item_from_path_at_index
      ⟨[("robot_logger_device",
          .group [("leaf", .leaf [[10], [11], [12], [13]] [0, 1, 2, 3])])],
        "robot_logger_device", [0, 7 / 5, 3]⟩
      ["leaf"] 1 none 0 = .ok (some (.row [11])) := by
  constructor
  · intro st path index ref d ts hres href hts hlen
    cases ham : argminAbs ref ts with
    | none =>
      cases ts with
      | nil => exact absurd rfl hts
      | cons a as => exact absurd ham (argminAbs_cons_ne_none ref a as)
    | some j =>
      obtain ⟨vj, hvj, hmin, hstrict⟩ := argminAbs_spec ref ts j ham
      have hjlt : j < d.length := by
        rw [hlen]; exact getElem?_lt_length ts j vj hvj
      have hrow : d[j]? = some (d.get ⟨j, hjlt⟩) := List.getElem?_eq_getElem hjlt
      refine ⟨j, vj, d.get ⟨j, hjlt⟩, ?_, ?_, ?_, ?_, ?_, ?_⟩
      · rfl
      · exact hvj
      · exact hrow
      · simp only [get_item_from_path_at_index, hres, href, ham, hrow]
        rfl
      · exact hmin
      · exact hstrict
  · have hres : get_item_from_path
        ⟨[("robot_logger_device",
            .group [("leaf", .leaf [[10], [11], [12], [13]] [0, 1, 2, 3])])],
          "robot_logger_device", [0, 7 / 5, 3]⟩ ["leaf"] none =
        .ok (some ([[10], [11], [12], [13]], [0, 1, 2, 3])) := by decide
    have ha3 : argminAbs (7 / 5) [(3 : ℚ)] = some 0 := by
      norm_num [argminAbs, abs]
    have ha2 : argminAbs (7 / 5) [(2 : ℚ), 3] = some 0 := by
      rw [argminAbs, ha3]
      norm_num [abs]
    have ha1 : argminAbs (7 / 5) [(1 : ℚ), 2, 3] = some 0 := by
      rw [argminAbs, ha2]
      norm_num [abs]
    have ha0 : argminAbs (7 / 5) [(0 : ℚ), 1, 2, 3] = some 1 := by
      rw [argminAbs, ha1]
      norm_num [abs]
    have href : ([(0 : ℚ), 7 / 5, 3])[(1 : ℕ)]? = some (7 / 5) := rfl
    simp only [get_item_from_path_at_index, hres, href, ha0]
    rfl

/-- Concrete instantiation of the quantified part of
`C2_nearest_timestamp_spec`: a single-leaf store with leaf timestamps
`[0, 10]` queried at global index 0. -/
theorem C2_nearest_timestamp_spec_witness :
    get_item_from_path
        ⟨[("r", .group [("s", .leaf [[5], [6]] [0, 10])])], "r", [0]⟩ ["s"] none =
      .ok (some ([[5], [6]], [0, 10])) ∧
    ∃ (j : ℕ) (vj : ℚ) (row : List ℚ),
      argminAbs 0 [(0 : ℚ), 10] = some j ∧ ([(0 : ℚ), 10])[j]? = some vj ∧
      ([[(5 : ℚ)], [6]])[j]? = some row ∧
      get_item_from_path_at_index
          ⟨[("r", .group [("s", .leaf [[5], [6]] [0, 10])])], "r", [0]⟩ ["s"] 0 none 0 =
        .ok (some (.row row)) ∧
      (∀ (k : ℕ) (vk : ℚ), ([(0 : ℚ), 10])[k]? = some vk → |vj - 0| ≤ |vk - 0|) ∧
      (∀ (k : ℕ) (vk : ℚ), k < j → ([(0 : ℚ), 10])[k]? = some vk → |vj - 0| < |vk - 0|) := by
  have hres : get_item_from_path
      ⟨[("r", .group [("s", .leaf [[5], [6]] [0, 10])])], "r", [0]⟩ ["s"] none =
      .ok (some ([[5], [6]], [0, 10])) := by decide
  exact ⟨hres,
    C2_nearest_timestamp_spec.1 _ ["s"] 0 0 [[5], [6]] [0, 10] hres rfl
      (by decide) (by decide)⟩

/-- **C7 (counterexample).** Resolving a path whose segment is absent
from the store does not return a "not found" value: the dict indexing
`data[key]` raises `KeyError`, which propagates to the caller. -/
theorem C7_missing_segment_raises :
    get_item_from_path
      ⟨[("robot_logger_device", .group [("a", .leaf [[1]] [0])])],
        "robot_logger_device", [0]⟩
      ["missing"] none = .error () := by decide

/-- The node reached before the absent segment either is a leaf record
(whose only keys are `data`/`timestamps`) or lacks the child. -/
def childMissing : DataNode → String → Prop
  | .leaf _ _, _ => True
  | .group cs, k => findChild cs k = none

theorem except_bind_ok {e a b : Type} (x : a) (f : a → Except e b) :
    (Except.ok x : Except e a).bind f = f x := rfl

theorem except_bind_error {e a b : Type} (x : e) (f : a → Except e b) :
    (Except.error x : Except e a).bind f = .error x := rfl

theorem walkPath_append (p1 : List String) :
    ∀ (n : DataNode) (p2 : List String),
      walkPath n (p1 ++ p2) = (walkPath n p1).bind (fun m => walkPath m p2) := by
  induction p1 with
  | nil => intro n p2; simp [walkPath, except_bind_ok]
  | cons k rest ih =>
    intro n p2
    cases n with
    | leaf d ts => simp [walkPath, except_bind_error]
    | group cs =>
      simp only [List.cons_append, walkPath]
      cases findChild cs k with
      | none => rfl
      | some c => exact ih c p2

theorem get_item_from_path_cons (st : QueryState) (root : DataNode)
    (a : String) (rest : List String)
    (hroot : findChild st.data st.root_name = some root) :
    get_item_from_path st (a :: rest) none =
      (walkPath root (a :: rest)).bind (fun n => (leafOf n).map some) := by
  rw [get_item_from_path, hroot]

/-- **C7 (amended).** Resolving a path that contains an absent segment
raises `KeyError` (the error propagates to the caller of
`get_item_from_path` / `get_item_from_path_at_index`); only the empty
path with no `default_path` yields the defined "not found" result
`(None, None)` (and `None` from `get_item_from_path_at_index`). -/
theorem C7_resolution_miss_amended :
    (∀ (st : QueryState) (root : DataNode),
      findChild st.data st.root_name = some root →
      get_item_from_path st [] none = .ok none) ∧
    (∀ (st : QueryState) (root : DataNode) (i n : ℕ),
      findChild st.data st.root_name = some root →
      get_item_from_path_at_index st [] i none n = .ok none) ∧
    (∀ (st : QueryState) (root : DataNode) (p1 : List String) (k : String)
        (p2 : List String),
      findChild st.data st.root_name = some root →
      (∀ m, walkPath root p1 = .ok m → childMissing m k) →
      get_item_from_path st (p1 ++ k :: p2) none = .error ()) ∧
    (∀ (st : QueryState) (path : List String) (i n : ℕ),
      get_item_from_path st path none = .error () →
      get_item_from_path_at_index st path i none n = .error ()) := by
  refine ⟨?_, ?_, ?_, ?_⟩
  · intro st root hroot
    rw [get_item_from_path, hroot]
  · intro st root i n hroot
    have h : get_item_from_path st [] none = .ok none := by
      rw [get_item_from_path, hroot]
    simp only [get_item_from_path_at_index, h]
  · intro st root p1 k p2 hroot hmiss
    have hw : walkPath root (p1 ++ k :: p2) = .error () := by
      rw [walkPath_append]
      cases hw1 : walkPath root p1 with
      | error e => cases e; rfl
      | ok m =>
        rw [except_bind_ok]
        have hm := hmiss m hw1
        cases m with
        | leaf d ts => rfl
        | group cs =>
          simp only [childMissing] at hm
          simp only [walkPath, hm]
    cases p1 with
    | nil =>
      rw [List.nil_append] at hw ⊢
      rw [get_item_from_path_cons st root k p2 hroot, hw]
      rfl
    | cons b bs =>
      rw [List.cons_append] at hw ⊢
      rw [get_item_from_path_cons st root b (bs ++ k :: p2) hroot, hw]
      rfl
  · intro st path i n h
    simp only [get_item_from_path_at_index, h]

/-- Concrete instantiation of `C7_resolution_miss_amended` on a
single-leaf store with the absent segment `"missing"`. -/
theorem C7_resolution_miss_amended_witness :
    get_item_from_path ⟨[("r", .group [("a", .leaf [[1]] [0])])], "r", [0]⟩
      ([] ++ "missing" :: []) none = .error () ∧
    get_item_from_path_at_index ⟨[("r", .group [("a", .leaf [[1]] [0])])], "r", [0]⟩
      [] 0 none 0 = .ok none := by
  constructor
  · exact C7_resolution_miss_amended.2.2.1
      ⟨[("r", .group [("a", .leaf [[1]] [0])])], "r", [0]⟩
      (.group [("a", .leaf [[1]] [0])]) [] "missing" [] rfl
      (fun m hm => by
        cases hm
        show findChild [("a", DataNode.leaf [[1]] [0])] "missing" = none
        rfl)
  · exact C7_resolution_miss_amended.2.1
      ⟨[("r", .group [("a", .leaf [[1]] [0])])], "r", [0]⟩
      (.group [("a", .leaf [[1]] [0])]) 0 0 rfl

/-! ## Offline archive loading: reference-timeline selection

`SignalProvider.__populate_numerical_data`
(`robot_log_visualizer/file_reader/signal_provider.py`) walks the h5
group tree; for every leaf it reads the `timestamps` vector and updates
the global reference timeline.  The walk itself is file I/O; its
observable effect on `self.timestamps` / `self.initial_time` /
`self.end_time` is a fold of the per-leaf update over the leaves'
timestamp vectors in traversal order, embedded here.  `initial_time`
starts at `math.inf` and `end_time` at `-math.inf`; the unset infinities
are modelled by `none`.
-/

structure LoadState where
  timestamps : List ℚ
  initial_time : Option ℚ
  end_time : Option ℚ
  deriving Repr, DecidableEq

/-- `x < self.initial_time`, where `none` stands for `math.inf`. -/
def ltInit (x : ℚ) : Option ℚ → Bool
  | none => true
  | some y => decide (x < y)

/-- `x > self.end_time`, where `none` stands for `-math.inf`. -/
def gtEnd (x : ℚ) : Option ℚ → Bool
  | none => true
  | some y => decide (y < x)

/-- The per-leaf update of `__populate_numerical_data`:
`if ts[0] < self.initial_time: self.timestamps = ts; self.initial_time = ts[0]`
followed by
`if ts[-1] > self.end_time: self.timestamps = ts; self.end_time = ts[-1]`;
reading `ts[0]` / `ts[-1]` on an empty vector raises `IndexError`. -/
def processLeaf (st : LoadState) (ts : List ℚ) : Except Unit LoadState :=
  match ts.head?, ts.getLast? with
  | some h, some l =>
    let st1 := if ltInit h st.initial_time
      then { st with timestamps := ts, initial_time := some h } else st
    let st2 := if gtEnd l st1.end_time
      then { st1 with timestamps := ts, end_time := some l } else st1
    .ok st2
  | _, _ => .error ()

/-- The traversal of `__populate_numerical_data`, restricted to its
effect on the reference timeline: a fold of `processLeaf` over the
leaves met in traversal order, from the constructor state. -/
def populate_numerical_data (leaves : List (List ℚ)) : Except Unit LoadState :=
  leaves.foldlM processLeaf ⟨[], none, none⟩

theorem populate_fold_mem (leaves : List (List ℚ)) :
    ∀ (st : LoadState), (∀ ts ∈ leaves, ts ≠ []) →
      ∃ st', leaves.foldlM processLeaf st = .ok st' ∧
        (st'.timestamps = st.timestamps ∨ st'.timestamps ∈ leaves) := by
  induction leaves with
  | nil => intro st _; exact ⟨st, rfl, .inl rfl⟩
  | cons ts rest ih =>
    intro st hne
    have hts : ts ≠ [] := hne ts (List.mem_cons_self _ _)
    obtain ⟨h, hh⟩ : ∃ h, ts.head? = some h :=
      ⟨ts.head hts, List.head?_eq_head hts⟩
    obtain ⟨l, hl⟩ : ∃ l, ts.getLast? = some l :=
      ⟨ts.getLast hts, List.getLast?_eq_getLast ts hts⟩
    have hstep : ∃ st1, processLeaf st ts = .ok st1 ∧
        (st1.timestamps = ts ∨ st1.timestamps = st.timestamps) := by
      simp only [processLeaf, hh, hl]
      by_cases h1 : ltInit h st.initial_time = true <;>
        by_cases h2 : gtEnd l st.end_time = true <;>
        simp [h1, h2]
    obtain ⟨st1, hst1, hts1⟩ := hstep
    obtain ⟨st', hfold, hmem⟩ := ih st1 (fun t ht => hne t (List.mem_cons_of_mem _ ht))
    refine ⟨st', ?_, ?_⟩
    · rw [List.foldlM_cons, hst1]
      simpa using hfold
    · rcases hmem with he | hm
      · rcases hts1 with h1 | h1
        · exact .inr (by rw [he, h1]; exact List.mem_cons_self _ _)
        · exact .inl (by rw [he, h1])
      · exact .inr (List.mem_cons_of_mem _ hm)

/-- **C4.** During offline loading, each leaf whose first timestamp is
earlier than the current `initial_time` makes its whole timestamp vector
the reference timeline (and its first sample the new `initial_time`);
symmetrically for `end_time` and last sample; otherwise the state is
untouched.  Consequently, after loading, the reference timeline equals
the timestamp vector of one single leaf, never a union of several. -/
theorem C4_reference_timeline_single_leaf :
    (∀ (st : LoadState) (ts : List ℚ) (h l : ℚ),
      ts.head? = some h → ts.getLast? = some l →
      ∃ st', processLeaf st ts = .ok st' ∧
        (ltInit h st.initial_time = true →
          st'.timestamps = ts ∧ st'.initial_time = some h) ∧
        (gtEnd l st.end_time = true →
          st'.timestamps = ts ∧ st'.end_time = some l) ∧
        (st'.timestamps = ts ∨ st'.timestamps = st.timestamps) ∧
        (ltInit h st.initial_time = false → gtEnd l st.end_time = false →
          st' = st)) ∧
    (∀ (leaves : List (List ℚ)), leaves ≠ [] → (∀ ts ∈ leaves, ts ≠ []) →
      ∃ st', populate_numerical_data leaves = .ok st' ∧
        st'.timestamps ∈ leaves) := by
  constructor
  · intro st ts h l hh hl
    by_cases h1 : ltInit h st.initial_time = true <;>
      by_cases h2 : gtEnd l st.end_time = true
    · refine ⟨⟨ts, some h, some l⟩, ?_, ?_, ?_, ?_, ?_⟩
      · simp only [processLeaf, hh, hl]; simp [h1, h2]
      · intro _; exact ⟨rfl, rfl⟩
      · intro _; exact ⟨rfl, rfl⟩
      · exact .inl rfl
      · intro hc _; rw [hc] at h1; simp at h1
    · refine ⟨⟨ts, some h, st.end_time⟩, ?_, ?_, ?_, ?_, ?_⟩
      · simp only [processLeaf, hh, hl]; simp [h1, h2]
      · intro _; exact ⟨rfl, rfl⟩
      · intro hc; rw [hc] at h2; simp at h2
      · exact .inl rfl
      · intro hc _; rw [hc] at h1; simp at h1
    · refine ⟨⟨ts, st.initial_time, some l⟩, ?_, ?_, ?_, ?_, ?_⟩
      · simp only [processLeaf, hh, hl]; simp [h1, h2]
      · intro hc; rw [hc] at h1; simp at h1
      · intro _; exact ⟨rfl, rfl⟩
      · exact .inl rfl
      · intro _ hc; rw [hc] at h2; simp at h2
    · refine ⟨st, ?_, ?_, ?_, ?_, ?_⟩
      · simp only [processLeaf, hh, hl]; simp [h1, h2]
      · intro hc; rw [hc] at h1; simp at h1
      · intro hc; rw [hc] at h2; simp at h2
      · exact .inr rfl
      · intro _ _; rfl
  · intro leaves hne hnz
    cases leaves with
    | nil => exact absurd rfl hne
    | cons ts rest =>
      have hts : ts ≠ [] := hnz ts (List.mem_cons_self _ _)
      obtain ⟨h, hh⟩ : ∃ h, ts.head? = some h :=
        ⟨ts.head hts, List.head?_eq_head hts⟩
      obtain ⟨l, hl⟩ : ∃ l, ts.getLast? = some l :=
        ⟨ts.getLast hts, List.getLast?_eq_getLast ts hts⟩
      have hstep : processLeaf ⟨[], none, none⟩ ts = .ok ⟨ts, some h, some l⟩ := by
        simp only [processLeaf, hh, hl]
        simp [ltInit, gtEnd]
      obtain ⟨st', hfold, hmem⟩ := populate_fold_mem rest ⟨ts, some h, some l⟩
        (fun t ht => hnz t (List.mem_cons_of_mem _ ht))
      refine ⟨st', ?_, ?_⟩
      · rw [populate_numerical_data, List.foldlM_cons, hstep]
        simpa using hfold
      · rcases hmem with he | hm
        · rw [he]; exact List.mem_cons_self _ _
        · exact List.mem_cons_of_mem _ hm

/-- Concrete instantiation of `C4_reference_timeline_single_leaf` on two
leaves `[0, 1]` and `[2, 3]`. -/
theorem C4_reference_timeline_single_leaf_witness :
    ∃ st', populate_numerical_data [[0, 1], [2, 3]] = .ok st' ∧
      st'.timestamps ∈ [[(0 : ℚ), 1], [2, 3]] :=
  C4_reference_timeline_single_leaf.2 [[0, 1], [2, 3]] (by decide) (by decide)

/-! ## Offline playback tick (`SignalProvider.run`)

One `running`-state iteration of the periodic loop: add one period to
`current_time`, clamp it to `timestamps[-1] - initial_time`, then scan
the reference timeline forward from the stored index.  The Python
`while` loop is embedded with explicit fuel; exhausted fuel (a
non-terminating scan) and an out-of-bounds read of the timeline both
surface as `Except.error`, so an `ok` result certifies termination and
in-bounds reads.
-/

/-- The forward scan
`while current_time > timestamps[tmp_index] - initial_time: tmp_index += 1;
if tmp_index > len(timestamps): break`.  Each loop test reads
`timestamps[tmp_index]`; a read at or past the length raises
`IndexError` (the break guard only fires once `tmp_index` exceeds
`len`). -/
def scanLoop (ts : List ℚ) (t0 ct : ℚ) : ℕ → ℕ → Except Unit ℕ
  | _, 0 => .error ()
  | tmp, fuel + 1 =>
    match ts[tmp]? with
    | none => .error ()
    | some v =>
      if ct > v - t0 then
        if tmp + 1 > ts.length then .ok (tmp + 1)
        else scanLoop ts t0 ct (tmp + 1) fuel
      else .ok tmp

/-- One `running` iteration of `SignalProvider.run`: the increment and
clamp of `_current_time` (`self._current_time = min(self._current_time +
self.period, self.timestamps[-1] - self.initial_time)`, raising
`IndexError` on an empty timeline) followed by the forward scan
publishing `_index`.  The stored index is read as a natural number (the
theorem assumes `0 ≤ index`, as `update_index` establishes). -/
def run_tick (st : OfflineState) : Except Unit OfflineState :=
  match st.timestamps.getLast? with
  | none => .error ()
  | some tlast =>
    match scanLoop st.timestamps st.initial_time
        (min (st.current_time + st.period) (tlast - st.initial_time)) st.index.toNat
        (st.timestamps.length + 1) with
    | .error _ => .error ()
    | .ok j =>
        .ok { st with index := (j : ℤ), current_time := min (st.current_time + st.period) (tlast - st.initial_time) }

theorem scanLoop_ok (ts : List ℚ) (t0 ct : ℚ) (vl : ℚ)
    (hvl : ts[ts.length - 1]? = some vl) (hct : ct ≤ vl - t0) :
    ∀ (fuel tmp : ℕ), tmp ≤ ts.length - 1 → ts.length - tmp ≤ fuel →
      ∃ j, scanLoop ts t0 ct tmp fuel = .ok j ∧ tmp ≤ j ∧ j ≤ ts.length - 1 := by
  have hlen : 0 < ts.length := by
    by_contra hz
    rw [List.getElem?_eq_none (by omega)] at hvl
    cases hvl
  intro fuel
  induction fuel with
  | zero => intro tmp h1 h2; omega
  | succ fuel ih =>
    intro tmp h1 h2
    have htlt : tmp < ts.length := by omega
    have hvt : ts[tmp]? = some ts[tmp] := List.getElem?_eq_getElem htlt
    by_cases hcond : ct > ts[tmp] - t0
    · have htne : tmp ≠ ts.length - 1 := by
        intro he
        have hsome : ts[tmp]? = some vl := by rw [he]; exact hvl
        have hv : ts[tmp] = vl := Option.some.inj (hvt.symm.trans hsome)
        rw [hv] at hcond
        linarith
      obtain ⟨j, hj, hj1, hj2⟩ := ih (tmp + 1) (by omega) (by omega)
      refine ⟨j, ?_, by omega, hj2⟩
      simp only [scanLoop, hvt]
      rw [if_pos hcond, if_neg (by omega : ¬ tmp + 1 > ts.length)]
      exact hj
    · refine ⟨tmp, ?_, le_refl _, by omega⟩
      simp only [scanLoop, hvt]
      rw [if_neg hcond]

/-- **C10.** On a running offline tick with a non-empty, sorted
reference timeline, a stored index in `[0, len-1]` and `current_time =
timestamps[index] - initial_time`, the incremental forward scan
terminates and never reads the timeline out of bounds (the clamp of
`current_time` to `timestamps[-1] - initial_time` stops the scan before
its own break guard could let it read past the last row), and the
published index is still in `[0, len-1]` and is `≥` the previous
index. -/
theorem C10_run_tick_safe (st : OfflineState)
    (hne : st.timestamps ≠ [])
    (hsorted : st.timestamps.Sorted (· ≤ ·))
    (h0 : 0 ≤ st.index) (h1 : st.index ≤ (st.timestamps.length : ℤ) - 1)
    (hct : ∃ v, st.timestamps[st.index.toNat]? = some v ∧
      st.current_time = v - st.initial_time) :
    ∃ st', run_tick st = .ok st' ∧
      0 ≤ st'.index ∧ st'.index ≤ (st.timestamps.length : ℤ) - 1 ∧
      st.index ≤ st'.index ∧ st'.timestamps = st.timestamps ∧
      st'.current_time = min (st.current_time + st.period)
        (st.timestamps.getLast hne - st.initial_time) := by
  obtain ⟨v, hv, hctv⟩ := hct
  have hlast : st.timestamps.getLast? = some (st.timestamps.getLast hne) :=
    List.getLast?_eq_getLast _ hne
  have hvl : st.timestamps[st.timestamps.length - 1]? =
      some (st.timestamps.getLast hne) := by
    rw [← List.getLast?_eq_getElem?]
    exact hlast
  obtain ⟨j, hj, hj1, hj2⟩ := scanLoop_ok st.timestamps st.initial_time
    (min (st.current_time + st.period) (st.timestamps.getLast hne - st.initial_time))
    (st.timestamps.getLast hne) hvl (min_le_right _ _)
    (st.timestamps.length + 1) st.index.toNat (by omega) (by omega)
  refine ⟨{ st with index := (j : ℤ), current_time := min (st.current_time + st.period) (st.timestamps.getLast hne - st.initial_time) }, ?_, ?_, ?_, ?_, rfl, rfl⟩
  · simp only [run_tick, hlast, hj]
  · exact Int.ofNat_nonneg j
  · simp only
    omega
  · simp only
    omega

/-- Concrete instantiation of `C10_run_tick_safe` on the timeline
`[0, 1, 2]` with index 0 and period 1. -/
theorem C10_run_tick_safe_witness :
    ∃ st', run_tick ⟨[0, 1, 2], 0, 0, 0, 1⟩ = .ok st' ∧
      0 ≤ st'.index ∧ st'.index ≤ (([(0 : ℚ), 1, 2]).length : ℤ) - 1 ∧
      (0 : ℤ) ≤ st'.index := by
  obtain ⟨st', ha, hb, hc, hd, _, _⟩ := C10_run_tick_safe ⟨[0, 1, 2], 0, 0, 0, 1⟩
    (by decide) (by decide) (by decide) (by decide) ⟨0, rfl, by norm_num⟩
  exact ⟨st', ha, hb, hc, hd⟩

/-! ## Realtime provider (`RealtimeSignalProvider`)

The realtime provider buffers a sliding window of the incoming stream:
`self._timestamps` is a deque bounded by
`self.realtime_fixed_plot_window`, and each buffered leaf holds `data`
and `timestamps` deques evicted by the same rule
(`_update_data_buffer`).  Deques are modelled as lists (append at the
tail, evict at the head).
-/

/-- `while deque and recent_timestamp - deque[0] > window: deque.popleft()`. -/
def evictFront (window t : ℚ) : List ℚ → List ℚ
  | [] => []
  | x :: xs => if t - x > window then evictFront window t xs else x :: xs

/-- The global timestamp update of one ingestion tick of
`RealtimeSignalProvider.run`: append the frame timestamp, then evict
from the front while the span exceeds the window. -/
def rtGlobalStep (window : ℚ) (ts : List ℚ) (t : ℚ) : List ℚ :=
  evictFront window t (ts ++ [t])

/-- A buffered leaf (`DequeToNumpyLeaf`): parallel `data` and
`timestamps` deques. -/
structure LeafBuf where
  data : List (List ℚ)
  timestamps : List ℚ
  deriving Repr, DecidableEq

/-- The leaf-level lockstep eviction of `_update_data_buffer`: while the
leaf timestamp deque is non-empty and its head is older than the window,
pop the head of both the data and the timestamp deques. -/
def evictFrontPair (window t : ℚ) : List (List ℚ) → List ℚ → List (List ℚ) × List ℚ
  | ds, [] => (ds, [])
  | ds, x :: xs =>
    if t - x > window then evictFrontPair window t (ds.drop 1) xs
    else (ds, x :: xs)

/-- The leaf append-and-evict of `_update_data_buffer`: append the value
and the frame timestamp, then evict old samples. -/
def leafAppendEvict (window : ℚ) (b : LeafBuf) (v : List ℚ) (t : ℚ) : LeafBuf :=
  ⟨(evictFrontPair window t (b.data ++ [v]) (b.timestamps ++ [t])).1,
   (evictFrontPair window t (b.data ++ [v]) (b.timestamps ++ [t])).2⟩

/-- A node of the realtime data tree: a dict that may hold child nodes
and, once `_update_data_buffer` initialised it, the leaf deques. -/
inductive RTNode where
  | mk (children : List (String × RTNode)) (buf : Option LeafBuf)

def RTNode.children : RTNode → List (String × RTNode)
  | .mk cs _ => cs

def RTNode.buf : RTNode → Option LeafBuf
  | .mk _ b => b

/-- Dictionary lookup among realtime tree children. -/
def findRTChild : List (String × RTNode) → String → Option RTNode
  | [], _ => none
  | (k', n) :: rest, k => if k' = k then some n else findRTChild rest k

/-- `if keys[0] not in raw_data: raw_data[keys[0]] = DequeToNumpyLeaf()`
followed by a mutation of `raw_data[keys[0]]`: update the child in
place, creating an empty node first when missing (Python dicts append
new keys at the end). -/
def updateChild (cs : List (String × RTNode)) (k : String) (f : RTNode → RTNode) :
    List (String × RTNode) :=
  match cs with
  | [] => [(k, f (.mk [] none))]
  | (k', n) :: rest =>
    if k' = k then (k', f n) :: rest else (k', n) :: updateChild rest k f

/-- `RealtimeSignalProvider._update_data_buffer`: recurse through the
key path creating missing nodes; at the last key, initialise the leaf
deques if missing, append the value and timestamp, and evict samples
outside the window. -/
def updateDataBuffer (window : ℚ) (cs : List (String × RTNode)) :
    List String → List ℚ → ℚ → List (String × RTNode)
  | [], _, _ => cs
  | [k], v, t =>
      updateChild cs k (fun n =>
        .mk n.children (some (leafAppendEvict window (n.buf.getD ⟨[], []⟩) v t)))
  | k :: k2 :: rest, v, t =>
      updateChild cs k (fun n =>
        .mk (updateDataBuffer window n.children (k2 :: rest) v t) n.buf)

/-- Reads the leaf deques stored at a key path in the realtime tree
(`none` when the path or its leaf record is absent). -/
def bufAt : List (String × RTNode) → List String → Option LeafBuf
  | _, [] => none
  | cs, [k] =>
    match findRTChild cs k with
    | none => none
    | some n => n.buf
  | cs, k :: k2 :: rest =>
    match findRTChild cs k with
    | none => none
    | some n => bufAt n.children (k2 :: rest)

/-- The state of `RealtimeSignalProvider` used by the ingestion tick:
`self._timestamps`, `self.data`, `self.buffered_signals`,
`self.realtime_fixed_plot_window` (20 in the source), the derived
`initial_time`/`end_time` pair and `self.root_name`. -/
structure RTState where
  timestamps : List ℚ
  data : List (String × RTNode)
  buffered_signals : List String
  window : ℚ
  initial_time : ℚ
  end_time : ℚ
  root_name : String

/-- Python `sel.startswith(key)`: the key string is a character-wise
prefix of `sel`. -/
def pyStartsWith (sel key : String) : Bool := key.data.isPrefixOf sel.data

/-- The wire key string of a pre-split key path (frames are transported
as flat maps keyed by `"seg::seg::...::chan"`; the embedding keeps the
split form the code immediately reconstructs with `split("::")`). -/
def keyString (keys : List String) : String := String.intercalate "::" keys

/-- One ingestion tick of `RealtimeSignalProvider.run` for one received
frame: append the frame timestamp to the global deque and evict beyond
the window; recompute `initial_time`/`end_time` from the trimmed deque;
then, for every non-timestamp key whose wire string is a prefix of some
selected signal (`any(sel.startswith(key_string) for sel in
self.buffered_signals)`), update that key's leaf buffer. -/
def rtTick (st : RTState) (frame : List (List String × List ℚ)) (t : ℚ) : RTState :=
  let ts1 := rtGlobalStep st.window st.timestamps t
  let d1 := frame.foldl (fun acc kv =>
    if keyString kv.1 = "robot_realtime::timestamps" then acc
    else if st.buffered_signals.any (fun sel => pyStartsWith sel (keyString kv.1)) then
      updateDataBuffer st.window acc kv.1 kv.2 t
    else acc) st.data
  { st with timestamps := ts1, data := d1, initial_time := ts1.headD st.initial_time, end_time := ts1.getLastD st.end_time }

/-- `RealtimeSignalProvider.add_signals_to_buffer`: set-insert of the
given signal names plus the always-included joint-position entry
(Python-set membership is modelled as list membership). -/
def add_signals_to_buffer (st : RTState) (signals : List String) : RTState :=
  { st with buffered_signals := st.buffered_signals ++ signals ++ ["robot_realtime::joints_state::positions"] }

/-- The realtime `index` property:
`len(self._timestamps) - 1 if len(self._timestamps) > 0 else 0`. -/
def rtIndex (st : RTState) : ℤ :=
  if 0 < st.timestamps.length then (st.timestamps.length : ℤ) - 1 else 0

/-- The path walk of the inherited `get_item_from_path` over the
realtime tree; a missing key raises `KeyError`. -/
def rtWalk : RTNode → List String → Except Unit RTNode
  | n, [] => .ok n
  | n, k :: rest =>
    match findRTChild n.children k with
    | none => .error ()
    | some c => rtWalk c rest

/-- The final `data["data"], data["timestamps"]` reads on a realtime
node: `KeyError` unless `_update_data_buffer` installed the deques. -/
def rtLeafOf (n : RTNode) : Except Unit LeafBuf :=
  match n.buf with
  | none => .error ()
  | some b => .ok b

/-- The inherited `get_item_from_path` evaluated on the realtime tree. -/
def rt_get_item_from_path (st : RTState) (path : List String)
    (default_path : Option (List String)) : Except Unit (Option LeafBuf) :=
  match findRTChild st.data st.root_name with
  | none => .error ()
  | some root =>
    match path with
    | [] =>
      match default_path with
      | none => .ok none
      | some dp => (rtWalk root dp).bind (fun n => (rtLeafOf n).map some)
    | _ :: _ => (rtWalk root path).bind (fun n => (rtLeafOf n).map some)

/-- `RealtimeSignalProvider.get_item_from_path_at_index`: returns `None`
when the resolution yields no data or either timestamp buffer is empty,
and otherwise the **last** row `data[-1, :]` of the resolved leaf — the
passed index is ignored. -/
def rt_get_item_from_path_at_index (st : RTState) (path : List String) (index : ℤ)
    (default_path : Option (List String)) (neighbor : ℕ) :
    Except Unit (Option (List ℚ)) :=
  match rt_get_item_from_path st path default_path with
  | .error e => .error e
  | .ok none => .ok none
  | .ok (some b) =>
    if st.timestamps.length = 0 ∨ b.timestamps.length = 0 then .ok none
    else
      match b.data.getLast? with
      | none => .error ()
      | some r => .ok (some r)

theorem evictFront_ne_nil (window t : ℚ) (hw : 0 ≤ window) :
    ∀ l : List ℚ, evictFront window t (l ++ [t]) ≠ [] := by
  intro l
  induction l with
  | nil =>
    simp only [List.nil_append, evictFront]
    rw [if_neg (by simp [sub_self]; linarith)]
    simp
  | cons x xs ih =>
    simp only [List.cons_append, evictFront]
    by_cases hc : t - x > window
    · rw [if_pos hc]; exact ih
    · rw [if_neg hc]; simp

theorem evictFront_head_bound (window t : ℚ) :
    ∀ (l : List ℚ) (h : ℚ), (evictFront window t l).head? = some h →
      t - h ≤ window := by
  intro l
  induction l with
  | nil => intro h hh; simp [evictFront] at hh
  | cons x xs ih =>
    intro h hh
    rw [evictFront] at hh
    by_cases hc : t - x > window
    · rw [if_pos hc] at hh; exact ih h hh
    · rw [if_neg hc] at hh
      simp only [List.head?_cons, Option.some.injEq] at hh
      subst hh
      linarith [not_lt.mp hc]

theorem evictFront_getLast (window t : ℚ) :
    ∀ l : List ℚ, evictFront window t l ≠ [] →
      (evictFront window t l).getLast? = l.getLast? := by
  intro l
  induction l with
  | nil => intro h; simp [evictFront] at h
  | cons x xs ih =>
    intro hne
    rw [evictFront] at hne ⊢
    by_cases hc : t - x > window
    · rw [if_pos hc] at hne ⊢
      have hxs : xs ≠ [] := by
        intro he
        rw [he] at hne
        simp [evictFront] at hne
      cases xs with
      | nil => exact absurd rfl hxs
      | cons y ys => rw [ih hne, List.getLast?_cons_cons]
    · rw [if_neg hc]

theorem rtGlobalStep_bounds (window : ℚ) (hw : 0 ≤ window) (ts : List ℚ) (t : ℚ) :
    ∃ h, (rtGlobalStep window ts t).head? = some h ∧
      (rtGlobalStep window ts t).getLast? = some t ∧
      t - h ≤ window ∧ t - window ≤ h := by
  have hne := evictFront_ne_nil window t hw ts
  obtain ⟨h, hh⟩ : ∃ h, (rtGlobalStep window ts t).head? = some h := by
    cases he : rtGlobalStep window ts t with
    | nil => exact absurd he hne
    | cons a as => exact ⟨a, rfl⟩
  have hb := evictFront_head_bound window t (ts ++ [t]) h hh
  refine ⟨h, hh, ?_, hb, by linarith⟩
  rw [rtGlobalStep, evictFront_getLast window t (ts ++ [t]) hne,
    List.getLast?_concat]

theorem evictFrontPair_snd (window t : ℚ) :
    ∀ (ts : List ℚ) (ds : List (List ℚ)),
      (evictFrontPair window t ds ts).2 = evictFront window t ts := by
  intro ts
  induction ts with
  | nil => intro ds; rfl
  | cons x xs ih =>
    intro ds
    rw [evictFrontPair, evictFront]
    by_cases hc : t - x > window
    · rw [if_pos hc, if_pos hc, ih]
    · rw [if_neg hc, if_neg hc]

/-- **C3.** After every ingestion tick, whatever the prior deque
contents, the global timestamp deque satisfies `last - first ≤ window`
and `first ≥ last - window` (the appended frame timestamp is the last
element); each buffered leaf's own timestamp deque independently
satisfies the same bound after each append; and feeding timestamps
`0..25` into a 20-second window leaves the oldest retained timestamp
`≥ 25 - 20 = 5`. -/
theorem C3_window_bound :
    (∀ (window : ℚ), 0 ≤ window → ∀ (ts : List ℚ) (t : ℚ),
      ∃ h, (rtGlobalStep window ts t).head? = some h ∧
        (rtGlobalStep window ts t).getLast? = some t ∧
        t - h ≤ window ∧ t - window ≤ h) ∧
    (∀ (window : ℚ), 0 ≤ window → ∀ (b : LeafBuf) (v : List ℚ) (t : ℚ),
      ∃ h, (leafAppendEvict window b v t).timestamps.head? = some h ∧
        (leafAppendEvict window b v t).timestamps.getLast? = some t ∧
        t - h ≤ window ∧ t - window ≤ h) ∧
    (∃ h, (List.foldl (rtGlobalStep 20) []
        [(0 : ℚ), 1, 2, 3, 4, 5, 6, 7, 8, 9, 10, 11, 12, 13, 14, 15, 16, 17,
          18, 19, 20, 21, 22, 23, 24, 25]).head? = some h ∧
      (List.foldl (rtGlobalStep 20) []
        [(0 : ℚ), 1, 2, 3, 4, 5, 6, 7, 8, 9, 10, 11, 12, 13, 14, 15, 16, 17,
          18, 19, 20, 21, 22, 23, 24, 25]).getLast? = some 25 ∧
      25 - h ≤ 20 ∧ 5 ≤ h) := by
  refine ⟨rtGlobalStep_bounds, ?_, ?_⟩
  · intro window hw b v t
    have hsnd : (leafAppendEvict window b v t).timestamps =
        rtGlobalStep window b.timestamps t := by
      rw [leafAppendEvict]
      exact evictFrontPair_snd window t (b.timestamps ++ [t]) (b.data ++ [v])
    rw [hsnd]
    exact rtGlobalStep_bounds window hw b.timestamps t
  · have hsplit : ([(0 : ℚ), 1, 2, 3, 4, 5, 6, 7, 8, 9, 10, 11, 12, 13, 14, 15,
        16, 17, 18, 19, 20, 21, 22, 23, 24, 25] : List ℚ) =
        [(0 : ℚ), 1, 2, 3, 4, 5, 6, 7, 8, 9, 10, 11, 12, 13, 14, 15, 16, 17,
          18, 19, 20, 21, 22, 23, 24] ++ [25] := rfl
    rw [hsplit, List.foldl_append]
    obtain ⟨h, hh, hl, hb1, hb2⟩ := rtGlobalStep_bounds 20 (by norm_num)
      (List.foldl (rtGlobalStep 20) []
        [(0 : ℚ), 1, 2, 3, 4, 5, 6, 7, 8, 9, 10, 11, 12, 13, 14, 15, 16, 17,
          18, 19, 20, 21, 22, 23, 24]) 25
    exact ⟨h, by simpa using hh, by simpa using hl, by linarith, by linarith⟩

/-- Concrete instantiation of `C3_window_bound` on an empty deque and a
leaf buffer receiving its first sample. -/
theorem C3_window_bound_witness :
    (∃ h, (rtGlobalStep 20 [] 0).head? = some h ∧
      (rtGlobalStep 20 [] 0).getLast? = some 0 ∧
      0 - h ≤ 20 ∧ 0 - 20 ≤ h) ∧
    (∃ h, (leafAppendEvict 20 ⟨[], []⟩ [1] 0).timestamps.head? = some h ∧
      (leafAppendEvict 20 ⟨[], []⟩ [1] 0).timestamps.getLast? = some 0 ∧
      0 - h ≤ 20 ∧ 0 - 20 ≤ h) :=
  ⟨C3_window_bound.1 20 (by norm_num) [] 0,
   C3_window_bound.2.1 20 (by norm_num) ⟨[], []⟩ [1] 0⟩

theorem findRTChild_updateChild_ne (k k' : String) (f : RTNode → RTNode)
    (hne : k' ≠ k) :
    ∀ cs : List (String × RTNode),
      findRTChild (updateChild cs k f) k' = findRTChild cs k' := by
  intro cs
  induction cs with
  | nil =>
    simp only [updateChild, findRTChild]
    rw [if_neg (fun h => hne h.symm)]
  | cons p rest ih =>
    obtain ⟨k0, n⟩ := p
    simp only [updateChild]
    by_cases h0 : k0 = k
    · rw [if_pos h0]
      simp only [findRTChild]
      have hno : ¬ (k0 = k') := by rw [h0]; exact fun h => hne h.symm
      rw [if_neg hno, if_neg hno]
    · rw [if_neg h0]
      simp only [findRTChild]
      by_cases h1 : k0 = k'
      · rw [if_pos h1, if_pos h1]
      · rw [if_neg h1, if_neg h1]; exact ih

theorem findRTChild_updateChild_eq (k : String) (f : RTNode → RTNode) :
    ∀ cs : List (String × RTNode),
      findRTChild (updateChild cs k f) k =
        some (f ((findRTChild cs k).getD (.mk [] none))) := by
  intro cs
  induction cs with
  | nil => simp [updateChild, findRTChild]
  | cons p rest ih =>
    obtain ⟨k0, n⟩ := p
    simp only [updateChild]
    by_cases h0 : k0 = k
    · rw [if_pos h0]
      simp only [findRTChild, if_pos h0]
      rfl
    · rw [if_neg h0]
      simp only [findRTChild, if_neg h0]
      exact ih

theorem bufAt_nil (ks : List String) : bufAt [] ks = none := by
  match ks with
  | [] => rfl
  | [k] => rfl
  | k :: k2 :: rest => rfl

/-- Updating the leaf buffer at one key path leaves the buffer read at
any other key path unchanged (`_update_data_buffer` writes the deques
only at the full key path it was called with). -/
theorem bufAt_updateDataBuffer_ne (window : ℚ) (v : List ℚ) (t : ℚ) :
    ∀ (ks' : List String) (cs : List (String × RTNode)) (ks : List String),
      ks ≠ [] → ks' ≠ [] → ks ≠ ks' →
      bufAt (updateDataBuffer window cs ks' v t) ks = bufAt cs ks := by
  intro ks'
  induction ks' with
  | nil => intro cs ks _ h2 _; exact absurd rfl h2
  | cons k' rest' ih =>
    intro cs ks hk _ hne
    cases ks with
    | nil => exact absurd rfl hk
    | cons k krest =>
      cases rest' with
      | nil =>
        by_cases hkk : k = k'
        · subst hkk
          cases krest with
          | nil => exact absurd rfl hne
          | cons k2 krest2 =>
            simp only [updateDataBuffer, bufAt, findRTChild_updateChild_eq]
            cases hfc : findRTChild cs k with
            | none => simp [RTNode.children, bufAt_nil]
            | some n =>
              cases n with
              | mk ncs nbuf => simp [RTNode.children]
        · have hswap : ¬ (k = k') := hkk
          cases krest with
          | nil =>
            simp only [updateDataBuffer, bufAt,
              findRTChild_updateChild_ne k' k _ hswap]
          | cons k2 kr2 =>
            simp only [updateDataBuffer, bufAt,
              findRTChild_updateChild_ne k' k _ hswap]
      | cons k2' rest2' =>
        by_cases hkk : k = k'
        · subst hkk
          cases krest with
          | nil =>
            simp only [updateDataBuffer, bufAt, findRTChild_updateChild_eq]
            cases hfc : findRTChild cs k with
            | none => rfl
            | some n =>
              cases n with
              | mk ncs nbuf => rfl
          | cons k2 krest2 =>
            have htail : (k2 :: krest2) ≠ (k2' :: rest2') := by
              intro he
              exact hne (by rw [he])
            simp only [updateDataBuffer, bufAt, findRTChild_updateChild_eq]
            cases hfc : findRTChild cs k with
            | none =>
              simp only [Option.getD_none, RTNode.children]
              rw [ih [] (k2 :: krest2) (by simp) (by simp) htail]
              simp [bufAt_nil]
            | some n =>
              cases n with
              | mk ncs nbuf =>
                simp only [Option.getD_some, RTNode.children]
                rw [ih ncs (k2 :: krest2) (by simp) (by simp) htail]
        · have hswap : ¬ (k = k') := hkk
          cases krest with
          | nil =>
            simp only [updateDataBuffer, bufAt,
              findRTChild_updateChild_ne k' k _ hswap]
          | cons k2 kr2 =>
            simp only [updateDataBuffer, bufAt,
              findRTChild_updateChild_ne k' k _ hswap]

theorem bufAt_frameFold_unbuffered (window : ℚ) (buffered : List String) (t : ℚ)
    (ks : List String) (hk : ks ≠ [])
    (hnb : ∀ sel ∈ buffered, ¬ pyStartsWith sel (keyString ks) = true) :
    ∀ (frame : List (List String × List ℚ)) (cs : List (String × RTNode)),
      bufAt (frame.foldl (fun acc kv =>
        if keyString kv.1 = "robot_realtime::timestamps" then acc
        else if buffered.any (fun sel => pyStartsWith sel (keyString kv.1)) then
          updateDataBuffer window acc kv.1 kv.2 t
        else acc) cs) ks = bufAt cs ks := by
  intro frame
  induction frame with
  | nil => intro cs; rfl
  | cons kv rest ihf =>
    intro cs
    rw [List.foldl_cons, ihf]
    by_cases h1 : keyString kv.1 = "robot_realtime::timestamps"
    · rw [if_pos h1]
    · rw [if_neg h1]
      by_cases h2 : buffered.any (fun sel => pyStartsWith sel (keyString kv.1)) = true
      · rw [if_pos h2]
        by_cases h3 : kv.1 = []
        · rw [h3]; rfl
        · have hneq : ks ≠ kv.1 := by
            intro he
            obtain ⟨sel, hsel, hsw⟩ := List.any_eq_true.mp h2
            exact hnb sel hsel (by rw [he]; exact hsw)
          exact bufAt_updateDataBuffer_ne window kv.2 t kv.1 cs ks hk h3 hneq
      · rw [if_neg h2]

theorem bufAt_rtTick_unbuffered (st : RTState) (frame : List (List String × List ℚ))
    (t : ℚ) (ks : List String) (hk : ks ≠ [])
    (hnb : ∀ sel ∈ st.buffered_signals, ¬ pyStartsWith sel (keyString ks) = true) :
    bufAt (rtTick st frame t).data ks = bufAt st.data ks :=
  bufAt_frameFold_unbuffered st.window st.buffered_signals t ks hk hnb frame st.data

theorem bufAt_rtTick_fold_unbuffered (ks : List String) (hk : ks ≠ []) :
    ∀ (ticks : List (List (List String × List ℚ) × ℚ)) (st : RTState),
      (∀ sel ∈ st.buffered_signals, ¬ pyStartsWith sel (keyString ks) = true) →
      bufAt (ticks.foldl (fun s ft => rtTick s ft.1 ft.2) st).data ks =
        bufAt st.data ks := by
  intro ticks
  induction ticks with
  | nil => intro st _; rfl
  | cons ft rest ih =>
    intro st hnb
    rw [List.foldl_cons]
    have hnb2 : ∀ sel ∈ (rtTick st ft.1 ft.2).buffered_signals,
        ¬ pyStartsWith sel (keyString ks) = true := hnb
    rw [ih _ hnb2]
    exact bufAt_rtTick_unbuffered st ft.1 ft.2 ks hk hnb

/-- **C8 (counterexample).** The gating check of the ingestion loop is
`any(sel.startswith(key_string) for sel in self.buffered_signals)`, so a
frame key that is a *prefix* of a buffered signal is ingested even
though it was never added: with only the always-included
`robot_realtime::joints_state::positions` buffered, a frame carrying the
never-added key `robot_realtime::joints_state` accumulates a sample in
that key's leaf after one tick. -/
theorem C8_gating_counterexample :
    "robot_realtime::joints_state" ∉
      (RTState.mk [] [] ["robot_realtime::joints_state::positions"] 20 0 0
        "robot_realtime").buffered_signals ∧
    "robot_realtime::joints_state" ≠ "robot_realtime::joints_state::positions" ∧
    bufAt (rtTick
      (RTState.mk [] [] ["robot_realtime::joints_state::positions"] 20 0 0
        "robot_realtime")
      [(["robot_realtime", "timestamps"], [0]),
       (["robot_realtime", "joints_state"], [1, 2])] 0).data
      ["robot_realtime", "joints_state"] = some ⟨[[1, 2]], [0]⟩ := by
  refine ⟨by decide, by decide, ?_⟩
  have hks1 : keyString ["robot_realtime", "timestamps"] =
      "robot_realtime::timestamps" := by decide
  have hks2 : keyString ["robot_realtime", "joints_state"] =
      "robot_realtime::joints_state" := by decide
  have hne2 : ¬ (keyString ["robot_realtime", "joints_state"] =
      "robot_realtime::timestamps") := by decide
  have hany : (["robot_realtime::joints_state::positions"].any
      (fun sel => pyStartsWith sel (keyString ["robot_realtime", "joints_state"]))) =
      true := by decide
  have hpair : evictFrontPair 20 0 [[(1 : ℚ), 2]] [0] = ([[(1 : ℚ), 2]], [0]) := by
    rw [evictFrontPair, if_neg (by norm_num)]
  have hleaf : leafAppendEvict 20 ⟨[], []⟩ [(1 : ℚ), 2] 0 = ⟨[[(1 : ℚ), 2]], [0]⟩ := by
    rw [leafAppendEvict]
    rw [show ([] : List (List ℚ)) ++ [[(1 : ℚ), 2]] = [[(1 : ℚ), 2]] from rfl,
        show ([] : List ℚ) ++ [0] = [0] from rfl, hpair]
  show bufAt (List.foldl _ _ _) _ = _
  rw [List.foldl_cons, if_pos hks1, List.foldl_cons, if_neg hne2, if_pos hany,
    List.foldl_nil]
  show bufAt (updateDataBuffer 20 [] ["robot_realtime", "joints_state"] [1, 2] 0)
      ["robot_realtime", "joints_state"] = some ⟨[[1, 2]], [0]⟩
  simp only [updateDataBuffer, updateChild, RTNode.buf, RTNode.children,
    Option.getD_none, hleaf]
  rfl

/-- **C8 (amended).** The realtime gating test ingests a frame key iff
its wire string is a prefix of some buffered signal.  Hence a key path
whose wire string is not a prefix of any buffered signal never
accumulates samples — per tick and across any sequence of ingestion
ticks — and adding a signal to the buffer set mid-stream does not
retroactively modify the data tree or the timestamps, so accumulation
can only start with frames received after the addition. -/
theorem C8_buffer_gating_amended :
    (∀ (st : RTState) (frame : List (List String × List ℚ)) (t : ℚ)
        (ks : List String), ks ≠ [] →
      (∀ sel ∈ st.buffered_signals, ¬ pyStartsWith sel (keyString ks) = true) →
      bufAt (rtTick st frame t).data ks = bufAt st.data ks) ∧
    (∀ (ks : List String), ks ≠ [] →
      ∀ (ticks : List (List (List String × List ℚ) × ℚ)) (st : RTState),
        (∀ sel ∈ st.buffered_signals, ¬ pyStartsWith sel (keyString ks) = true) →
        bufAt (ticks.foldl (fun s ft => rtTick s ft.1 ft.2) st).data ks =
          bufAt st.data ks) ∧
    (∀ (st : RTState) (signals : List String),
      (add_signals_to_buffer st signals).data = st.data ∧
      (add_signals_to_buffer st signals).timestamps = st.timestamps) :=
  ⟨fun st fr t ks hk hnb => bufAt_rtTick_unbuffered st fr t ks hk hnb,
   fun ks hk ticks st hnb => bufAt_rtTick_fold_unbuffered ks hk ticks st hnb,
   fun _ _ => ⟨rfl, rfl⟩⟩

/-- Concrete instantiation of `C8_buffer_gating_amended`: the key path
`["other"]` is not a prefix of the buffered joint-position signal, so
one tick carrying it leaves its leaf empty. -/
theorem C8_buffer_gating_amended_witness :
    bufAt (rtTick
      (RTState.mk [] [] ["robot_realtime::joints_state::positions"] 20 0 0
        "robot_realtime")
      [(["other"], [1])] 0).data ["other"] =
    bufAt (RTState.mk [] [] ["robot_realtime::joints_state::positions"] 20 0 0
        "robot_realtime").data ["other"] :=
  C8_buffer_gating_amended.1
    (RTState.mk [] [] ["robot_realtime::joints_state::positions"] 20 0 0
      "robot_realtime")
    [(["other"], [1])] 0 ["other"] (by decide) (by decide)

/-- **C9 (counterexample).** Before any frame has been ingested the
realtime `index` property returns `0`, not `len(timestamps) - 1 = -1`:
the property explicitly guards the empty buffer
(`... if len(self._timestamps) > 0 else 0`). -/
theorem C9_latest_index_counterexample :
    rtIndex (RTState.mk [] [] [] 20 0 0 "robot_realtime") = 0 ∧
    ((RTState.mk [] [] [] 20 0 0 "robot_realtime").timestamps.length : ℤ) - 1 = -1 ∧
    rtIndex (RTState.mk [] [] [] 20 0 0 "robot_realtime") ≠
      ((RTState.mk [] [] [] 20 0 0 "robot_realtime").timestamps.length : ℤ) - 1 := by
  refine ⟨rfl, by decide, by decide⟩

/-- **C9 (amended).** With at least one ingested sample the realtime
`index` property always yields `len(timestamps) - 1` (the latest
received sample; it is not an independently settable cursor), and on the
empty buffer it yields `0`; `get_item_from_path_at_index` ignores the
passed index entirely, and on a resolved leaf with non-empty global and
leaf timestamp buffers it returns the last row of the leaf's data
matrix. -/
theorem C9_latest_index_amended :
    (∀ st : RTState, st.timestamps ≠ [] →
      rtIndex st = (st.timestamps.length : ℤ) - 1) ∧
    (∀ st : RTState, st.timestamps = [] → rtIndex st = 0) ∧
    (∀ (st : RTState) (path : List String) (dp : Option (List String))
        (n : ℕ) (i j : ℤ),
      rt_get_item_from_path_at_index st path i dp n =
        rt_get_item_from_path_at_index st path j dp n) ∧
    (∀ (st : RTState) (path : List String) (dp : Option (List String))
        (n : ℕ) (i : ℤ) (b : LeafBuf) (r : List ℚ),
      rt_get_item_from_path st path dp = .ok (some b) →
      st.timestamps ≠ [] → b.timestamps ≠ [] →
      b.data.getLast? = some r →
      rt_get_item_from_path_at_index st path i dp n = .ok (some r)) := by
  refine ⟨?_, ?_, ?_, ?_⟩
  · intro st h
    rw [rtIndex, if_pos (List.length_pos.mpr h)]
  · intro st h
    rw [rtIndex, if_neg (by rw [h]; simp)]
  · intro st path dp n i j
    rfl
  · intro st path dp n i b r hres hts hbts hlast
    simp only [rt_get_item_from_path_at_index, hres]
    rw [if_neg (by
      rintro (h | h)
      · exact hts (List.length_eq_zero.mp h)
      · exact hbts (List.length_eq_zero.mp h))]
    rw [hlast]

/-- Concrete instantiation of `C9_latest_index_amended` on a one-sample
buffer with a single resolved leaf. -/
theorem C9_latest_index_amended_witness :
    rtIndex (RTState.mk [0]
      [("robot_realtime", .mk [("leaf", .mk [] (some ⟨[[7]], [0]⟩))] none)]
      [] 20 0 0 "robot_realtime") =
      (((RTState.mk [0]
        [("robot_realtime", .mk [("leaf", .mk [] (some ⟨[[7]], [0]⟩))] none)]
        [] 20 0 0 "robot_realtime").timestamps.length : ℤ) - 1) ∧
    rt_get_item_from_path_at_index (RTState.mk [0]
      [("robot_realtime", .mk [("leaf", .mk [] (some ⟨[[7]], [0]⟩))] none)]
      [] 20 0 0 "robot_realtime") ["leaf"] 5 none 0 = .ok (some [7]) := by
  constructor
  · exact C9_latest_index_amended.1 _ (by decide)
  · exact C9_latest_index_amended.2.2.2 _ ["leaf"] none 0 5 ⟨[[7]], [0]⟩ [7]
      (by decide) (by decide) (by decide) (by decide)

end RLV
